import Mathlib

/-!
Verification development for the publication/update date extractor
(src/newspaper/extractors/pubdate_extractor.py).

The module harvests date candidates from four sources (URL, structured
data, time elements, meta/attribute elements), scores them, sorts the
candidate list and selects the best "updated" and "published" dates.

External collaborators (the DOM query layer, the regex engine, the
free text date parser, the wall clock) are modelled as inputs:
the extractor is embedded as a pure function of the values those
collaborators return.
-/

namespace Newspaper

/-- The date kind tag attached to each candidate: the source uses the
strings "updated", "published" and "unknown". -/
inductive Kind where
  | updated
  | published
  | unknown
deriving DecidableEq

/-- A parsed datetime value.  Scoring only inspects the calendar date
(`datetime_obj.date()`), modelled by `day`, the ordinal day number; `tod`
keeps datetimes with equal day distinct, mirroring the time component. -/
structure DateTime where
  day : Int
  tod : Nat
deriving DecidableEq

/-- One harvested candidate: the tuple `(datetime_obj, score, date_type)`
appended to `date_matches` in the source. -/
structure Candidate where
  date : DateTime
  score : Int
  kind : Kind
deriving DecidableEq

/-- The exception kinds the external date parser can raise, per the
spec error taxonomy (malformed value, numeric overflow, wrong type,
missing value) and the except clause of `parse_date_str`:
`except (ValueError, OverflowError, AttributeError, TypeError)`. -/
inductive PErr where
  | valueError
  | overflowError
  | attributeError
  | typeError
deriving DecidableEq

/-- The external free text date parser (`dateutil.parser.parse`):
returns a datetime or raises one of the `PErr` exceptions. -/
abbrev DateParser := String → Except PErr DateTime

/-- The tuple of exception classes caught by `parse_date_str`
(line 51: `except (ValueError, OverflowError, AttributeError, TypeError)`). -/
def isCaught : PErr → Bool
  | .valueError => true
  | .overflowError => true
  | .attributeError => true
  | .typeError => true

/-- The try/except block inside `parse_date_str` (lines 49-52): call the
external parser; a caught exception becomes `None`, any other exception
would propagate to the caller. -/
def tryParse (p : DateParser) (s : String) : Except PErr (Option DateTime) :=
  match p s with
  | .ok d => .ok (some d)
  | .error e => if isCaught e then .ok none else .error e

/-- `parse_date_str` (lines 47-52): `if date_str:` guards against `None`
and the empty string (both falsy); inside the guard the parser is called
under try/except.  A fall through returns `None`. -/
def parse_date_str (p : DateParser) : Option String → Except PErr (Option DateTime)
  | none => .ok none
  | some s => if s = "" then .ok none else tryParse p s

/-- Pure shadow of `parse_date_str`: the value it returns, given that
every exception the parser raises is caught. -/
def pds (p : DateParser) : Option String → Option DateTime
  | none => none
  | some s =>
    if s = "" then none else
      match p s with
      | .ok d => some d
      | .error _ => none

theorem tryParse_ok (p : DateParser) (s : String) :
    tryParse p s = .ok (match p s with | .ok d => some d | .error _ => none) := by
  unfold tryParse
  cases p s with
  | ok d => rfl
  | error e => cases e <;> rfl

theorem parse_date_str_ok (p : DateParser) (s? : Option String) :
    parse_date_str p s? = .ok (pds p s?) := by
  cases s? with
  | none => rfl
  | some s =>
    unfold parse_date_str pds
    by_cases h : s = "" <;> simp [h, tryParse_ok]

/-! ### Case insensitive substring matching

The time element classifier runs `re.search(pattern, text, re.I)` with
patterns that are plain alternations of literal strings, i.e. case
insensitive substring tests.  We model them over lists of characters. -/

/-- Lowercased character list of a string (the effect of `re.I` on a
literal pattern match, for ASCII text). -/
def lowerChars (s : String) : List Char := s.toList.map Char.toLower

/-- `startsWithChars hay pat`: `pat` is an initial segment of `hay`. -/
def startsWithChars : List Char → List Char → Bool
  | _, [] => true
  | [], _ :: _ => false
  | h :: hs, p :: ps => h == p && startsWithChars hs ps

/-- `containsChars hay pat`: `pat` occurs contiguously inside `hay`. -/
def containsChars : List Char → List Char → Bool
  | [], pat => pat.isEmpty
  | h :: hs, pat => startsWithChars (h :: hs) pat || containsChars hs pat

/-- Case insensitive substring search: `re.search` of a literal pattern
with the `re.I` flag. -/
def containsCI (hay pat : String) : Bool :=
  containsChars (lowerChars hay) (lowerChars pat)

/-! ### URL date harvesting (lines 54-60)

`re.search(urls.STRICT_DATE_REGEX, article_url)` is an external regex
call; its result (the matched substring of the URL, or no match) is an
input to the embedding. -/

/-- Lines 54-60: if the strict date regex matched, parse the matched
substring; on success append one candidate `(date, 10, "published")`. -/
def urlCands (p : DateParser) : Option String → List Candidate
  | none => []
  | some m =>
    match pds p (some m) with
    | some d => [⟨d, 10, .published⟩]
    | none => []

/-- Exception threaded version of `urlCands`. -/
def urlCandsE (p : DateParser) : Option String → Except PErr (List Candidate)
  | none => .ok []
  | some m =>
    match parse_date_str p (some m) with
    | .error e => .error e
    | .ok (some d) => .ok [⟨d, 10, .published⟩]
    | .ok none => .ok []

theorem urlCandsE_ok (p : DateParser) (m? : Option String) :
    urlCandsE p m? = .ok (urlCands p m?) := by
  cases m? with
  | none => rfl
  | some m =>
    simp only [urlCandsE, urlCands, parse_date_str_ok]
    cases pds p (some m) <;> rfl

/-- Sequencing of per item harvesting in the exception monad: process the
items front to back, appending each item's candidates, propagating any
uncaught exception. -/
def listCandsE {α : Type} (f : α → Except PErr (List Candidate)) :
    List α → Except PErr (List Candidate)
  | [] => .ok []
  | x :: xs =>
    match f x with
    | .error e => .error e
    | .ok cs =>
      match listCandsE f xs with
      | .error e => .error e
      | .ok rest => .ok (cs ++ rest)

theorem listCandsE_ok {α : Type} (f : α → Except PErr (List Candidate))
    (g : α → List Candidate) (h : ∀ x, f x = .ok (g x)) :
    ∀ l : List α, listCandsE f l = .ok (l.flatMap g)
  | [] => rfl
  | x :: xs => by
    simp only [listCandsE, h x, listCandsE_ok f g h xs, List.flatMap_cons]

/-! ### Structured data harvesting (lines 62-85)

`parsers.get_ld_json_object(doc)` is an external collaborator.
Modelled from the spec: `get_structured_data(doc) -> sequence<mapping>`
returns zero or more structured data objects, each either graph shaped
(an `"@graph"` key holding a sequence of entries) or flat; the JSON
decoding itself is outside the source file.  A graph shaped object is
represented by its `"@graph"` entries (the source reads nothing else
from it: it only does `script_tag.get("@graph", [])`); a flat object by
its key/value pairs in dictionary iteration order. -/

/-- A JSON value as far as the extractor inspects one: a string, a
mapping, a sequence, or anything else (numbers, booleans, null), which
never yields a date: a falsy value is skipped by the `if date_str:`
guard and a truthy non string makes the external parser raise a
`TypeError`, which the except clause catches. -/
inductive JVal where
  | str (s : String)
  | obj (fields : List (String × JVal))
  | arr (elems : List JVal)
  | other

/-- A structured data object as returned by the collaborator. -/
inductive SDObj where
  | graph (entries : List JVal)
  | flat (fields : List (String × JVal))

/-- `mapping.get(key)`: first value bound to `key`, if any (Python dict
keys are unique, so first is the only one). -/
def jGet : List (String × JVal) → String → Option JVal
  | [], _ => none
  | (k, v) :: rest, key => if k = key then some v else jGet rest key

/-- `parse_date_str` applied to a JSON value: strings go through the
parser; every other value yields no date (falsy values fail the
`if date_str:` guard, truthy non strings raise a caught `TypeError`). -/
def pdsJ (p : DateParser) : JVal → Option DateTime
  | .str s => pds p (some s)
  | _ => none

/-- The key/kind pairs of the graph branch, line 71:
`[("dateModified", "updated"), ("datePublished", "published")]`. -/
def graphKeySpec : List (String × Kind) :=
  [("dateModified", .updated), ("datePublished", .published)]

/-- Lines 72-78: handling of one key/kind pair for one graph entry:
`item.get(date_key)`, skip a missing value (`if date_str is None`),
parse, and on success append a candidate with score 10. -/
def graphKeyCands (p : DateParser) (fields : List (String × JVal))
    (kv : String × Kind) : List Candidate :=
  match jGet fields kv.1 with
  | none => []
  | some v =>
    match pdsJ p v with
    | some d => [⟨d, 10, kv.2⟩]
    | none => []

/-- Lines 69-79: one entry of an `"@graph"` sequence.  Non mapping
entries are skipped (`if not isinstance(item, dict): continue`); for a
mapping, each key of `graphKeySpec` that is present and parses appends a
candidate with score 10. -/
def graphItemCands (p : DateParser) : JVal → List Candidate
  | .obj fields => graphKeySpec.flatMap (graphKeyCands p fields)
  | _ => []

/-- The key list of the flat branch, line 81:
`["dateModified", "datePublished", "dateCreated"]`. -/
def flatKeySpec : List String := ["dateModified", "datePublished", "dateCreated"]

/-- Lines 80-85: iterate the keys of a flat object; a listed key whose
value parses appends a candidate with score 9, kind "updated" exactly
for `dateModified`, else "published". -/
def flatFieldCands (p : DateParser) (kv : String × JVal) : List Candidate :=
  if kv.1 ∈ flatKeySpec then
    match pdsJ p kv.2 with
    | some d => [⟨d, 9, if kv.1 = "dateModified" then .updated else .published⟩]
    | none => []
  else []

/-- Lines 66-85: candidates of one structured data object. -/
def sdObjCands (p : DateParser) : SDObj → List Candidate
  | .graph entries => entries.flatMap (graphItemCands p)
  | .flat fields => fields.flatMap (flatFieldCands p)

/-- Exception threaded version of `parse_date_str` on a JSON value. -/
def pdsJE (p : DateParser) : JVal → Except PErr (Option DateTime)
  | .str s => parse_date_str p (some s)
  | _ => .ok none

theorem pdsJE_ok (p : DateParser) (v : JVal) : pdsJE p v = .ok (pdsJ p v) := by
  cases v <;> simp [pdsJE, pdsJ, parse_date_str_ok]

/-- Exception threaded version of `graphKeyCands`. -/
def graphKeyCandsE (p : DateParser) (fields : List (String × JVal))
    (kv : String × Kind) : Except PErr (List Candidate) :=
  match jGet fields kv.1 with
  | none => .ok []
  | some v =>
    match pdsJE p v with
    | .error e => .error e
    | .ok (some d) => .ok [⟨d, 10, kv.2⟩]
    | .ok none => .ok []

theorem graphKeyCandsE_ok (p : DateParser) (fields : List (String × JVal))
    (kv : String × Kind) : graphKeyCandsE p fields kv = .ok (graphKeyCands p fields kv) := by
  simp only [graphKeyCandsE, graphKeyCands, pdsJE_ok]
  cases jGet fields kv.1 with
  | none => rfl
  | some v => cases hd : pdsJ p v <;> simp [hd]

/-- Exception threaded version of `graphItemCands`. -/
def graphItemCandsE (p : DateParser) : JVal → Except PErr (List Candidate)
  | .obj fields => listCandsE (graphKeyCandsE p fields) graphKeySpec
  | _ => .ok []

theorem graphItemCandsE_ok (p : DateParser) (v : JVal) :
    graphItemCandsE p v = .ok (graphItemCands p v) := by
  cases v with
  | obj fields =>
    exact listCandsE_ok _ _ (graphKeyCandsE_ok p fields) graphKeySpec
  | str s => rfl
  | arr es => rfl
  | other => rfl

/-- Exception threaded version of `flatFieldCands`. -/
def flatFieldCandsE (p : DateParser) (kv : String × JVal) :
    Except PErr (List Candidate) :=
  if kv.1 ∈ flatKeySpec then
    match pdsJE p kv.2 with
    | .error e => .error e
    | .ok (some d) => .ok [⟨d, 9, if kv.1 = "dateModified" then .updated else .published⟩]
    | .ok none => .ok []
  else .ok []

theorem flatFieldCandsE_ok (p : DateParser) (kv : String × JVal) :
    flatFieldCandsE p kv = .ok (flatFieldCands p kv) := by
  simp only [flatFieldCandsE, flatFieldCands, pdsJE_ok]
  by_cases h : kv.1 ∈ flatKeySpec
  · simp only [if_pos h]
    cases hd : pdsJ p kv.2 <;> simp [hd]
  · simp only [if_neg h]

/-- Exception threaded version of `sdObjCands`. -/
def sdObjCandsE (p : DateParser) : SDObj → Except PErr (List Candidate)
  | .graph entries => listCandsE (graphItemCandsE p) entries
  | .flat fields => listCandsE (flatFieldCandsE p) fields

theorem sdObjCandsE_ok (p : DateParser) (o : SDObj) :
    sdObjCandsE p o = .ok (sdObjCands p o) := by
  cases o with
  | graph entries => exact listCandsE_ok _ _ (graphItemCandsE_ok p) entries
  | flat fields => exact listCandsE_ok _ _ (flatFieldCandsE_ok p) fields

/-! ### Time element harvesting (lines 87-98)

`parsers.get_tags(doc, tag="time")` is external; each matched element is
modelled by the two things the source reads from it: the `datetime`
attribute and the visible text. -/

/-- A `<time>` element as far as the extractor inspects one. -/
structure TimeTag where
  datetime : Option String
  text : Option String

/-- Python truthiness of an optional string: `None` and `""` are falsy. -/
def pyTruthy : Option String → Bool
  | none => false
  | some s => !(s = "")

/-- Lines 93-98: classify a time element by its visible text.  Note that
the second pattern of the source is the non raw Python string
`"published|\bon:"`, in which `\b` is the backspace character `\x08`,
not a word boundary: the second alternative only matches a text that
literally contains a backspace followed by `on:`. -/
def classifyTime (text? : Option String) : Kind × Int :=
  let t := text?.getD ""
  if pyTruthy text? && (containsCI t "updated" || containsCI t "modified") then
    (.updated, 8)
  else if pyTruthy text? && (containsCI t "published" || containsCI t "\x08on:") then
    (.published, 7)
  else
    (.unknown, 5)

/-- Lines 88-98: one time element.  Elements whose `datetime` attribute
is missing or empty (`if item.get("datetime"):`) or fails to parse yield
nothing; otherwise one candidate classified by the visible text. -/
def timeTagCands (p : DateParser) (t : TimeTag) : List Candidate :=
  if pyTruthy t.datetime then
    match pds p t.datetime with
    | some d => [⟨d, (classifyTime t.text).2, (classifyTime t.text).1⟩]
    | none => []
  else []

/-- Exception threaded version of `timeTagCands`. -/
def timeTagCandsE (p : DateParser) (t : TimeTag) : Except PErr (List Candidate) :=
  if pyTruthy t.datetime then
    match parse_date_str p t.datetime with
    | .error e => .error e
    | .ok (some d) => .ok [⟨d, (classifyTime t.text).2, (classifyTime t.text).1⟩]
    | .ok none => .ok []
  else .ok []

theorem timeTagCandsE_ok (p : DateParser) (t : TimeTag) :
    timeTagCandsE p t = .ok (timeTagCands p t) := by
  simp only [timeTagCandsE, timeTagCands, parse_date_str_ok]
  by_cases h : pyTruthy t.datetime
  · simp only [if_pos h]
    cases hd : pds p t.datetime <;> simp [hd]
  · simp only [if_neg h]

/-! ### Meta/attribute harvesting (lines 100-133)

The `candidates` pool (lines 100-117) is built by three loops over
external DOM queries (`get_metatags`, `get_elements_by_attribs`) driven
by the static tables `UPDATED_DATE_META_INFO`, `PUBLISHED_DATE_META_INFO`
and `PUBLISH_DATE_TAGS`.  The queries and the tables the first two loops
consume are outside the extractor; the pool is therefore an input: a
list of entries `(element, content_attribute, date_type)` in the order
built, with kind "updated" for the first loop, "published" for the
second and "unknown" for the third, and where the element is represented
by the two things lines 119-124 read from it: its tag name and the value
of its designated content attribute. -/

/-- One entry of the `candidates` pool of lines 100-117. -/
structure MetaCand where
  tag : String
  attrVal : Option String
  kind : Kind

/-- Lines 123-132: the score of a meta/attribute candidate at extraction
time.  `now` is the ordinal day of `datetime.now().date()`, so
`(datetime.now().date() - datetime_obj.date()).days` is `now - d.day`. -/
def metaScore (now : Int) (m : MetaCand) (d : DateTime) : Int :=
  let s0 : Int := 6
  let s1 := if lowerChars m.tag = "meta".toList then s0 + 1 else s0
  let s2 := if m.kind = .updated then s1 + 2 else s1
  let daysDiff := now - d.day
  if daysDiff < 0 then s2 - 2
  else if daysDiff > 25 * 365 then s2 - 1
  else s2

/-- Lines 119-133: one pool entry; read the designated content attribute
(`parsers.get_attribute`, already resolved into `attrVal`), parse it, and
on success append one scored candidate. -/
def metaCands (p : DateParser) (now : Int) (m : MetaCand) : List Candidate :=
  match pds p m.attrVal with
  | some d => [⟨d, metaScore now m d, m.kind⟩]
  | none => []

/-- Exception threaded version of `metaCands`. -/
def metaCandsE (p : DateParser) (now : Int) (m : MetaCand) :
    Except PErr (List Candidate) :=
  match parse_date_str p m.attrVal with
  | .error e => .error e
  | .ok (some d) => .ok [⟨d, metaScore now m d, m.kind⟩]
  | .ok none => .ok []

theorem metaCandsE_ok (p : DateParser) (now : Int) (m : MetaCand) :
    metaCandsE p now m = .ok (metaCands p now m) := by
  simp only [metaCandsE, metaCands, parse_date_str_ok]
  cases hd : pds p m.attrVal <;> simp [hd]

/-! ### Assembling the candidate list (whole body of `parse`) -/

/-- Everything `parse` receives from its collaborators for one call:
the strict date regex result on the URL, the structured data objects,
the time elements, and the meta/attribute candidate pool. -/
structure ExtractInput where
  urlMatch : Option String
  scripts : List SDObj
  timeTags : List TimeTag
  metaPool : List MetaCand

/-- The `date_matches` list as of line 135: candidates appended by the
four harvesting stages in source order (URL, structured data, time
elements, meta/attribute pool). -/
def dateMatches (p : DateParser) (now : Int) (inp : ExtractInput) : List Candidate :=
  urlCands p inp.urlMatch
    ++ inp.scripts.flatMap (sdObjCands p)
    ++ inp.timeTags.flatMap (timeTagCands p)
    ++ inp.metaPool.flatMap (metaCands p now)

/-- Exception threaded version of `dateMatches`. -/
def dateMatchesE (p : DateParser) (now : Int) (inp : ExtractInput) :
    Except PErr (List Candidate) :=
  match urlCandsE p inp.urlMatch with
  | .error e => .error e
  | .ok a =>
    match listCandsE (sdObjCandsE p) inp.scripts with
    | .error e => .error e
    | .ok b =>
      match listCandsE (timeTagCandsE p) inp.timeTags with
      | .error e => .error e
      | .ok c =>
        match listCandsE (metaCandsE p now) inp.metaPool with
        | .error e => .error e
        | .ok d => .ok (a ++ b ++ c ++ d)

theorem dateMatchesE_ok (p : DateParser) (now : Int) (inp : ExtractInput) :
    dateMatchesE p now inp = .ok (dateMatches p now inp) := by
  simp only [dateMatchesE, dateMatches, urlCandsE_ok,
    listCandsE_ok _ _ (sdObjCandsE_ok p) inp.scripts,
    listCandsE_ok _ _ (timeTagCandsE_ok p) inp.timeTags,
    listCandsE_ok _ _ (metaCandsE_ok p now) inp.metaPool]

/-! ### Sorting and selection (lines 135-140)

Line 135 is `date_matches.sort(key=lambda x: (x[1], x[2] == "updated"),
reverse=True)`: a stable sort, descending on the lexicographic key
(score, kind is "updated"), ties keeping list order.  Python list.sort
is stable also under `reverse=True` (the ordering is reversed, tie order
is not); we embed it as the stable insertion sort with the same key. -/

/-- `candBefore a b`: in the descending sort, `a` may be placed before
`b`, i.e. the sort key of `a` is at least the sort key of `b` in the
lexicographic order on `(score, kind == "updated")`. -/
def candBefore (a b : Candidate) : Bool :=
  b.score < a.score
    || (b.score = a.score && (!(b.kind = Kind.updated) || (a.kind = Kind.updated)))

/-- Insert a candidate into an already sorted (descending) list, before
the first element it does not have to follow: the earlier element wins
ties, which is stability for the front to back insertion order. -/
def insertCand (x : Candidate) : List Candidate → List Candidate
  | [] => [x]
  | y :: ys => if candBefore x y then x :: y :: ys else y :: insertCand x ys

/-- The stable descending sort of line 135. -/
def sortCandidates : List Candidate → List Candidate
  | [] => []
  | x :: xs => insertCand x (sortCandidates xs)

/-- Lines 137-138: the first candidate of the given kind in sorted
order, if any (`next((date for date, _, type_ in date_matches if
type_ == k), None)`). -/
def selectKind (k : Kind) (l : List Candidate) : Option DateTime :=
  ((sortCandidates l).find? (fun c => c.kind = k)).map (fun c => c.date)

/-- The observable outcome of one `parse` call: the two retained fields
`self.updatedate` and `self.pubdate`, and the returned value. -/
structure ParseResult where
  updatedate : Option DateTime
  pubdate : Option DateTime
  ret : Option DateTime
deriving DecidableEq

/-- The whole `parse` method (lines 37-140): harvest, sort, select, set
the two fields and return `self.updatedate or self.pubdate` (a datetime
object is always truthy, so the Python `or` is `Option.or`). -/
def parseRun (p : DateParser) (now : Int) (inp : ExtractInput) : ParseResult :=
  let dm := dateMatches p now inp
  let upd := selectKind .updated dm
  let pub := selectKind .published dm
  ⟨upd, pub, upd.or pub⟩

/-- Exception threaded version of `parseRun`: the call as the caller
sees it, with any uncaught exception surfacing as an error value. -/
def parseRunE (p : DateParser) (now : Int) (inp : ExtractInput) :
    Except PErr ParseResult :=
  match dateMatchesE p now inp with
  | .error e => .error e
  | .ok dm => .ok ⟨selectKind .updated dm, selectKind .published dm,
      (selectKind .updated dm).or (selectKind .published dm)⟩

/-! ### Properties of the sort -/

theorem candBefore_iff (a b : Candidate) :
    candBefore a b = true ↔
      b.score < a.score ∨ (b.score = a.score ∧ (b.kind = .updated → a.kind = .updated)) := by
  simp only [candBefore, Bool.or_eq_true, Bool.and_eq_true, Bool.not_eq_true',
    decide_eq_true_eq, decide_eq_false_iff_not]
  constructor
  · rintro (h | ⟨h1, h2 | h2⟩)
    · exact Or.inl h
    · exact Or.inr ⟨h1, fun hb => absurd hb h2⟩
    · exact Or.inr ⟨h1, fun _ => h2⟩
  · rintro (h | ⟨h1, h2⟩)
    · exact Or.inl h
    · by_cases hb : b.kind = .updated
      · exact Or.inr ⟨h1, Or.inr (h2 hb)⟩
      · exact Or.inr ⟨h1, Or.inl hb⟩

theorem candBefore_total (a b : Candidate) :
    candBefore a b = true ∨ candBefore b a = true := by
  rw [candBefore_iff, candBefore_iff]
  rcases lt_trichotomy a.score b.score with h | h | h
  · exact Or.inr (Or.inl h)
  · by_cases hb : b.kind = .updated
    · by_cases ha : a.kind = .updated
      · exact Or.inl (Or.inr ⟨h.symm, fun _ => ha⟩)
      · exact Or.inr (Or.inr ⟨h, fun _ => hb⟩)
    · exact Or.inl (Or.inr ⟨h.symm, fun hb2 => absurd hb2 hb⟩)
  · exact Or.inl (Or.inl h)

theorem candBefore_trans {a b c : Candidate} (hab : candBefore a b = true)
    (hbc : candBefore b c = true) : candBefore a c = true := by
  rw [candBefore_iff] at hab hbc ⊢
  rcases hab with h1 | ⟨h1, p1⟩ <;> rcases hbc with h2 | ⟨h2, p2⟩
  · exact Or.inl (h2.trans h1)
  · exact Or.inl (by omega)
  · exact Or.inl (by omega)
  · exact Or.inr ⟨by omega, fun h => p1 (p2 h)⟩

/-- The sort order as a binary relation on candidates. -/
def CandLE (a b : Candidate) : Prop := candBefore a b = true

theorem insertCand_nil (x : Candidate) : insertCand x [] = [x] := rfl

theorem insertCand_cons (x y : Candidate) (ys : List Candidate) :
    insertCand x (y :: ys) =
      if candBefore x y then x :: y :: ys else y :: insertCand x ys := rfl

theorem mem_insertCand {x a : Candidate} :
    ∀ {l : List Candidate}, a ∈ insertCand x l ↔ a = x ∨ a ∈ l
  | [] => by simp [insertCand_nil]
  | y :: ys => by
    rw [insertCand_cons]
    by_cases h : candBefore x y
    · simp only [if_pos h, List.mem_cons]
      try tauto
    · simp only [if_neg h, List.mem_cons, mem_insertCand (l := ys)]
      try tauto

theorem insertCand_perm (x : Candidate) :
    ∀ l : List Candidate, List.Perm (insertCand x l) (x :: l)
  | [] => List.Perm.refl _
  | y :: ys => by
    rw [insertCand_cons]
    by_cases h : candBefore x y
    · rw [if_pos h]
    · rw [if_neg h]
      exact ((insertCand_perm x ys).cons y).trans (List.Perm.swap x y ys)

theorem sortCandidates_perm : ∀ l : List Candidate, List.Perm (sortCandidates l) l
  | [] => List.Perm.refl _
  | x :: xs => (insertCand_perm x (sortCandidates xs)).trans
      ((sortCandidates_perm xs).cons x)

theorem mem_sortCandidates {a : Candidate} {l : List Candidate} :
    a ∈ sortCandidates l ↔ a ∈ l :=
  (sortCandidates_perm l).mem_iff

theorem sorted_insertCand {x : Candidate} :
    ∀ {l : List Candidate}, l.Pairwise CandLE → (insertCand x l).Pairwise CandLE
  | [], _ => by simp [insertCand_nil]
  | y :: ys, h => by
    rw [insertCand_cons]
    rcases List.pairwise_cons.1 h with ⟨hy, hys⟩
    by_cases hxy : candBefore x y
    · rw [if_pos hxy]
      refine List.Pairwise.cons ?_ h
      intro z hz
      rcases List.mem_cons.1 hz with rfl | hz
      · exact hxy
      · exact candBefore_trans hxy (hy z hz)
    · rw [if_neg hxy]
      refine List.Pairwise.cons ?_ (sorted_insertCand hys)
      intro z hz
      rcases mem_insertCand.1 hz with rfl | hz
      · rcases candBefore_total z y with h' | h'
        · exact absurd h' hxy
        · exact h'
      · exact hy z hz

theorem sorted_sortCandidates : ∀ l : List Candidate, (sortCandidates l).Pairwise CandLE
  | [] => List.Pairwise.nil
  | x :: xs => sorted_insertCand (x := x) (sorted_sortCandidates xs)

theorem insertCand_of_forall {x : Candidate} :
    ∀ {l : List Candidate}, (∀ z ∈ l, candBefore x z = true) → insertCand x l = x :: l
  | [], _ => rfl
  | y :: ys, h => by
    rw [insertCand_cons, if_pos (h y (List.mem_cons_self y ys))]

/-- Stability under filtering: filtering an inserted list is inserting
into the filtered list (when the insertee passes the filter). -/
theorem filter_insertCand (q : Candidate → Bool) (x : Candidate) :
    ∀ {l : List Candidate}, l.Pairwise CandLE →
      (insertCand x l).filter q =
        if q x then insertCand x (l.filter q) else l.filter q
  | [], _ => by
    by_cases hx : q x <;> simp [insertCand_nil, List.filter, hx]
  | y :: ys, h => by
    rcases List.pairwise_cons.1 h with ⟨hy, hys⟩
    rw [insertCand_cons]
    by_cases hxy : candBefore x y
    · rw [if_pos hxy]
      by_cases hx : q x
      · rw [List.filter_cons_of_pos hx, if_pos hx]
        by_cases hqy : q y
        · rw [List.filter_cons_of_pos hqy, insertCand_cons, if_pos hxy]
        · rw [List.filter_cons_of_neg hqy]
          refine (insertCand_of_forall ?_).symm
          intro z hz
          exact candBefore_trans hxy (hy z (List.mem_of_mem_filter hz))
      · rw [List.filter_cons_of_neg hx, if_neg hx]
    · rw [if_neg hxy]
      by_cases hqy : q y
      · rw [List.filter_cons_of_pos hqy, List.filter_cons_of_pos hqy,
          filter_insertCand q x hys]
        by_cases hx : q x
        · rw [if_pos hx, if_pos hx, insertCand_cons, if_neg hxy]
        · rw [if_neg hx, if_neg hx]
      · rw [List.filter_cons_of_neg hqy, List.filter_cons_of_neg hqy,
          filter_insertCand q x hys]

/-- The stable sort commutes with filtering. -/
theorem filter_sortCandidates (q : Candidate → Bool) :
    ∀ l : List Candidate, (sortCandidates l).filter q = sortCandidates (l.filter q)
  | [] => rfl
  | x :: xs => by
    show (insertCand x (sortCandidates xs)).filter q = sortCandidates ((x :: xs).filter q)
    rw [filter_insertCand q x (sorted_sortCandidates xs)]
    by_cases hx : q x
    · rw [if_pos hx, List.filter_cons_of_pos hx, filter_sortCandidates q xs]
      rfl
    · rw [if_neg hx, List.filter_cons_of_neg hx, filter_sortCandidates q xs]

/-- The first candidate of the sorted list satisfying a predicate is the
head of the sorted filtered list. -/
theorem find?_sortCandidates (q : Candidate → Bool) (l : List Candidate) :
    (sortCandidates l).find? q = (sortCandidates (l.filter q)).head? := by
  rw [← List.filter_head?, filter_sortCandidates]

/-! ### Generic selection facts -/

theorem selectKind_some {k : Kind} {l : List Candidate} {d : DateTime}
    (h : selectKind k l = some d) : ∃ c ∈ l, c.kind = k ∧ c.date = d := by
  simp only [selectKind, Option.map_eq_some'] at h
  rcases h with ⟨c, hc, rfl⟩
  refine ⟨c, ?_, ?_, rfl⟩
  · exact mem_sortCandidates.1 (List.mem_of_find?_eq_some hc)
  · have := List.find?_some hc
    simpa using this

theorem selectKind_none {k : Kind} {l : List Candidate}
    (h : ∀ c ∈ l, c.kind ≠ k) : selectKind k l = none := by
  simp only [selectKind, Option.map_eq_none', List.find?_eq_none]
  intro c hc
  simpa using h c (mem_sortCandidates.1 hc)

/-- A raw string behind every successful `pds`. -/
theorem pds_some {p : DateParser} {s? : Option String} {d : DateTime}
    (h : pds p s? = some d) : ∃ s : String, p s = .ok d := by
  cases s? with
  | none => exact absurd h (by simp [pds])
  | some s =>
    refine ⟨s, ?_⟩
    simp only [pds] at h
    by_cases he : s = ""
    · simp [he] at h
    · rw [if_neg he] at h
      cases hp : p s <;> rw [hp] at h <;> simp_all

theorem pdsJ_some {p : DateParser} {v : JVal} {d : DateTime}
    (h : pdsJ p v = some d) : ∃ s : String, p s = .ok d := by
  cases v <;> simp only [pdsJ] at h <;> first
    | exact pds_some h
    | exact absurd h (by simp)

/-! ### Concrete inputs used to instantiate the theorems -/

/-- A concrete external parser: knows three date strings, raises
`ValueError` on everything else. -/
def demoParse : DateParser := fun s =>
  if s = "2023-04-15" then .ok ⟨100, 0⟩
  else if s = "2024-01-02" then .ok ⟨200, 0⟩
  else if s = "2023-12-01" then .ok ⟨150, 0⟩
  else .error .valueError

/-- A document whose only evidence is one flat structured data object
with a modified and a published date. -/
def demoFlatInput : ExtractInput :=
  ⟨none,
   [.flat [("dateModified", .str "2024-01-02"), ("datePublished", .str "2023-12-01")]],
   [], []⟩

/-- An input with no evidence at all. -/
def demoEmptyInput : ExtractInput := ⟨none, [], [], []⟩

/-! ### The claims -/

/-- C1: for every harvested candidate list, the scorer/selector sorts it
by (score, kind == Updated) descending with score as the primary key;
the updated-date result is the first candidate of kind Updated in sorted
order and the published-date result is the first candidate of kind
Published; among two candidates of equal score, an Updated candidate
sorts before a non-Updated one; Unknown-kind candidates are never
selected as either result; and if no candidate of a kind exists that
result is absent. -/
theorem C1_sort_and_select (l : List Candidate) :
    (sortCandidates l).Pairwise (fun a b =>
        b.score < a.score ∨ (b.score = a.score ∧ (b.kind = .updated → a.kind = .updated)))
    ∧ (∀ k, selectKind k l =
        ((sortCandidates l).find? (fun c => c.kind = k)).map (fun c => c.date))
    ∧ (∀ a b : Candidate, a.score = b.score → a.kind = .updated → b.kind ≠ .updated →
        sortCandidates [b, a] = [a, b])
    ∧ (∀ k d, selectKind k l = some d → ∃ c ∈ l, c.kind = k ∧ c.date = d)
    ∧ (∀ k, (∀ c ∈ l, c.kind ≠ k) → selectKind k l = none) := by
  refine ⟨?_, fun k => rfl, ?_, fun k d h => selectKind_some h, fun k h => selectKind_none h⟩
  · exact (sorted_sortCandidates l).imp (fun h => (candBefore_iff _ _).1 h)
  · intro a b hs ha hb
    show insertCand b (insertCand a []) = [a, b]
    rw [insertCand_nil, insertCand_cons, if_neg, insertCand_nil]
    rw [candBefore_iff]
    rintro (h | ⟨h1, h2⟩)
    · omega
    · exact hb (h2 ha)

/-- Witness for C1 at concrete inputs: the tie between an Updated and a
Published candidate of equal score goes to the Updated one even when the
Published one came first; a selected date comes from a candidate of the
selected kind; a kind with no candidate yields no result. -/
theorem C1_witness :
    sortCandidates [⟨⟨2, 0⟩, 9, .published⟩, ⟨⟨1, 0⟩, 9, .updated⟩]
        = [⟨⟨1, 0⟩, 9, .updated⟩, ⟨⟨2, 0⟩, 9, .published⟩]
    ∧ (∃ c ∈ [Candidate.mk ⟨5, 0⟩ 7 .published], c.kind = .published ∧ c.date = ⟨5, 0⟩)
    ∧ selectKind .updated [Candidate.mk ⟨5, 0⟩ 7 .published] = none := by
  have h := C1_sort_and_select [Candidate.mk ⟨5, 0⟩ 7 .published]
  refine ⟨h.2.2.1 ⟨⟨1, 0⟩, 9, .updated⟩ ⟨⟨2, 0⟩, 9, .published⟩ rfl rfl (by decide), ?_, ?_⟩
  · exact h.2.2.2.1 .published ⟨5, 0⟩ (by decide)
  · exact h.2.2.2.2 .updated (by decide)

theorem selectKind_filter (k : Kind) (hk : k ≠ .unknown) (l : List Candidate) :
    selectKind k (l.filter (fun c => !(c.kind = .unknown))) = selectKind k l := by
  simp only [selectKind, ← List.filter_head?, filter_sortCandidates, List.filter_filter]
  have heq : List.filter (fun a => decide (a.kind = k) && !decide (a.kind = Kind.unknown)) l
      = List.filter (fun c => decide (c.kind = k)) l := by
    refine List.filter_congr ?_
    intro c _
    by_cases hc : c.kind = .unknown
    · simp [hc, Ne.symm hk]
    · simp [hc]
  rw [heq]

/-- C10: removing all Unknown-kind candidates before the sort leaves
both selected results unchanged: the sort is stable and compares only
(score, kind == Updated), and selection takes the first candidate of
each of the Updated and Published kinds, so Unknown candidates never
affect which updated-date and published-date are selected. -/
theorem C10_unknown_candidates_irrelevant (l : List Candidate) :
    selectKind .updated (l.filter (fun c => !(c.kind = .unknown))) = selectKind .updated l
    ∧ selectKind .published (l.filter (fun c => !(c.kind = .unknown))) = selectKind .published l :=
  ⟨selectKind_filter .updated (by simp) l, selectKind_filter .published (by simp) l⟩

/-- C3: the value returned by `parse` equals the updated-date result
when one exists, otherwise the published-date result, while the two
fields retain both results individually; when no harvester yields any
candidate, both retained fields and the returned value are absent. -/
theorem C3_return_value (p : DateParser) (now : Int) (inp : ExtractInput) :
    (parseRun p now inp).updatedate = selectKind .updated (dateMatches p now inp)
    ∧ (parseRun p now inp).pubdate = selectKind .published (dateMatches p now inp)
    ∧ (∀ d, (parseRun p now inp).updatedate = some d → (parseRun p now inp).ret = some d)
    ∧ ((parseRun p now inp).updatedate = none →
        (parseRun p now inp).ret = (parseRun p now inp).pubdate)
    ∧ (dateMatches p now inp = [] → parseRun p now inp = ⟨none, none, none⟩) := by
  refine ⟨rfl, rfl, ?_, ?_, ?_⟩
  · intro d h
    show ((parseRun p now inp).updatedate).or _ = some d
    rw [h]
    rfl
  · intro h
    show ((parseRun p now inp).updatedate).or _ = _
    rw [h]
    rfl
  · intro h
    simp only [parseRun, h]
    rfl

/-- Witness for C3: on a candidate-free input the call returns a result
with both fields and the returned value absent. -/
theorem C3_witness : parseRun demoParse 300 demoEmptyInput = ⟨none, none, none⟩ :=
  (C3_return_value demoParse 300 demoEmptyInput).2.2.2.2 rfl

/-- C4: for every meta/attribute pool entry whose content attribute
parses as a date, the candidate's score is a base of 6, plus 1 if the
tag is the metadata-tag form (meta), plus 2 if its kind is Updated,
minus 2 if the date is strictly in the future relative to extraction
time, and minus 1 if it is more than 25 years (as 25 * 365 days) in the
past, all adjustments applied together additively; a future-dated
candidate scores exactly 2 less than an otherwise-identical past-dated
one. -/
theorem C4_meta_scoring (p : DateParser) (now : Int) (m : MetaCand) (d : DateTime) :
    (pds p m.attrVal = some d → metaCands p now m = [⟨d, metaScore now m d, m.kind⟩])
    ∧ metaScore now m d =
        6 + (if lowerChars m.tag = "meta".toList then 1 else 0)
          + (if m.kind = .updated then 2 else 0)
          + (if now - d.day < 0 then -2 else 0)
          + (if now - d.day > 25 * 365 then -1 else 0)
    ∧ (∀ d1 d2 : DateTime, now - d1.day < 0 → 0 ≤ now - d2.day → now - d2.day ≤ 25 * 365 →
        lowerChars m.tag = lowerChars m.tag →
        metaScore now m d1 = metaScore now m d2 - 2) := by
  refine ⟨?_, ?_, ?_⟩
  · intro h
    simp only [metaCands, h]
  · simp only [metaScore]
    split_ifs <;> omega
  · intro d1 d2 h1 h2 h3 _
    simp only [metaScore]
    split_ifs <;> omega

/-- Witness for C4: a meta tag, updated kind, future-dated entry scores
6 + 1 + 2 - 2 = 7, exactly 2 below the otherwise-identical past-dated
score 9. -/
theorem C4_witness :
    metaCands demoParse 150 ⟨"META", some "2024-01-02", .updated⟩
        = [⟨⟨200, 0⟩, 7, .updated⟩]
    ∧ metaScore 150 ⟨"META", some "2024-01-02", .updated⟩ ⟨200, 0⟩
        = metaScore 150 ⟨"META", some "2024-01-02", .updated⟩ ⟨100, 0⟩ - 2 := by
  have h := C4_meta_scoring demoParse 150 ⟨"META", some "2024-01-02", .updated⟩ ⟨200, 0⟩
  constructor
  · rw [h.1 (by decide)]
    have hs : metaScore 150 ⟨"META", some "2024-01-02", .updated⟩ ⟨200, 0⟩ = 7 := by decide
    rw [hs]
  · exact h.2.2 ⟨200, 0⟩ ⟨100, 0⟩ (by decide) (by decide) (by decide) rfl

/-- C7: if the strict date-pattern matcher finds a match and the matched
substring parses as a date, the URL harvester emits exactly one
candidate with kind Published and score 10; on no match or on parse
failure it emits nothing; with no competing evidence from other
harvesters, such a URL yields published equal to the URL date and
updated absent. -/
theorem C7_url_candidate (p : DateParser) (now : Int) (m : String) (d : DateTime) :
    (pds p (some m) = some d → urlCands p (some m) = [⟨d, 10, .published⟩])
    ∧ (pds p (some m) = none → urlCands p (some m) = [])
    ∧ urlCands p none = []
    ∧ (pds p (some m) = some d →
        parseRun p now ⟨some m, [], [], []⟩ = ⟨none, some d, some d⟩) := by
  refine ⟨?_, ?_, rfl, ?_⟩
  · intro h
    simp only [urlCands, h]
  · intro h
    simp only [urlCands, h]
  · intro h
    have hdm : dateMatches p now ⟨some m, [], [], []⟩ = [⟨d, 10, .published⟩] := by
      simp [dateMatches, urlCands, h]
    simp only [parseRun, hdm]
    rfl

/-- Witness for C7: a URL whose match parses with the demo parser yields
the published date alone. -/
theorem C7_witness :
    parseRun demoParse 300 ⟨some "2023-04-15", [], [], []⟩
        = ⟨none, some ⟨100, 0⟩, some ⟨100, 0⟩⟩ :=
  ((C7_url_candidate demoParse 300 "2023-04-15" ⟨100, 0⟩).2.2.2) (by decide)

/-- C2: the claim says `parse` returns the pair (optional updated,
optional published), as its own type annotation
`Tuple[Optional[datetime], Optional[datetime]]` states; the code instead
returns the single value `self.updatedate or self.pubdate`.  On a
document carrying both an updated and a published date the returned
value is the updated timestamp only: the published result is readable
only through the retained field, not through the return value. -/
theorem C2_single_return_value :
    parseRun demoParse 300 demoFlatInput
        = ⟨some ⟨200, 0⟩, some ⟨150, 0⟩, some ⟨200, 0⟩⟩
    ∧ (parseRun demoParse 300 demoFlatInput).ret
        ≠ (parseRun demoParse 300 demoFlatInput).pubdate := by
  constructor
  · rfl
  · decide

/-- C5: the code classifies a time element by
`re.search("updated|modified", text, re.I)` and then
`re.search("published|\bon:", text, re.I)`.  The second pattern is a non
raw Python string, so `\b` is the backspace character: a visible text
carrying the "on:" marker of the claim does not match it and falls
through to kind Unknown with score 5, while texts matching "updated",
"modified" or "published" behave as claimed, and elements without a
machine-readable attribute or whose attribute fails to parse emit
nothing. -/
theorem C5_on_marker_dead_branch :
    classifyTime (some "on: Jan 5, 2024") = (.unknown, 5)
    ∧ timeTagCands demoParse ⟨some "2023-04-15", some "on: Jan 5, 2024"⟩
        = [⟨⟨100, 0⟩, 5, .unknown⟩]
    ∧ classifyTime (some "Published on Jan 5") = (.published, 7)
    ∧ classifyTime (some "Last Updated") = (.updated, 8)
    ∧ classifyTime (some "Modified today") = (.updated, 8)
    ∧ classifyTime (some "\x08on: Jan 5") = (.published, 7)
    ∧ timeTagCands demoParse ⟨none, some "Published on Jan 5"⟩ = []
    ∧ timeTagCands demoParse ⟨some "garbage", some "Published on Jan 5"⟩ = [] := by
  refine ⟨by decide, by decide, by decide, by decide, by decide, by decide, rfl, by decide⟩

/-- Zero or one candidate out of an optional parsed date: the
"on success append one candidate" step shared by the harvesters. -/
def optCand (sc : Int) (k : Kind) : Option DateTime → List Candidate
  | some d => [⟨d, sc, k⟩]
  | none => []

theorem graphKeyCands_eq (p : DateParser) (fields : List (String × JVal))
    (kv : String × Kind) :
    graphKeyCands p fields kv = optCand 10 kv.2 ((jGet fields kv.1).bind (pdsJ p)) := by
  simp only [graphKeyCands]
  cases jGet fields kv.1 with
  | none => rfl
  | some v => cases hd : pdsJ p v <;> simp [Option.bind, hd, optCand]

theorem flatFieldCands_eq (p : DateParser) (kv : String × JVal) :
    flatFieldCands p kv =
      if kv.1 = "dateModified" then optCand 9 .updated (pdsJ p kv.2)
      else if kv.1 = "datePublished" ∨ kv.1 = "dateCreated" then
        optCand 9 .published (pdsJ p kv.2)
      else [] := by
  simp only [flatFieldCands, flatKeySpec, List.mem_cons, List.not_mem_nil, or_false]
  by_cases h1 : kv.1 = "dateModified"
  · simp only [h1, if_pos, true_or, if_true]
    cases hd : pdsJ p kv.2 <;> simp [hd, optCand, h1]
  · by_cases h2 : kv.1 = "datePublished" ∨ kv.1 = "dateCreated"
    · have : kv.1 = "dateModified" ∨ kv.1 = "datePublished" ∨ kv.1 = "dateCreated" :=
        Or.inr h2
      simp only [if_pos this, if_neg h1, if_pos h2]
      cases hd : pdsJ p kv.2 <;> simp [hd, optCand, h1]
    · have : ¬(kv.1 = "dateModified" ∨ kv.1 = "datePublished" ∨ kv.1 = "dateCreated") := by
        tauto
      simp [if_neg this, if_neg h1, if_neg h2]

theorem flatFieldCands_none {p : DateParser} {kv : String × JVal}
    (h : pdsJ p kv.2 = none) : flatFieldCands p kv = [] := by
  rw [flatFieldCands_eq, h]
  split_ifs <;> rfl

/-- C6: a structured-data object with an "@graph" key contributes, for
each mapping entry of the graph, an Updated candidate from dateModified
and a Published candidate from datePublished (score 10 when the value
parses; non-mapping entries contribute nothing); a flat object
contributes an Updated candidate from its dateModified key and
Published candidates from its datePublished and dateCreated keys (score
9 when the value parses); unparseable values are dropped without
affecting the other keys. -/
theorem C6_structured_data (p : DateParser) :
    (∀ entries, sdObjCands p (.graph entries) = entries.flatMap (graphItemCands p))
    ∧ (∀ fields, graphItemCands p (.obj fields) =
        optCand 10 .updated ((jGet fields "dateModified").bind (pdsJ p))
          ++ optCand 10 .published ((jGet fields "datePublished").bind (pdsJ p)))
    ∧ (∀ s, graphItemCands p (.str s) = [])
    ∧ (∀ es, graphItemCands p (.arr es) = [])
    ∧ graphItemCands p .other = []
    ∧ (∀ fields, sdObjCands p (.flat fields) = fields.flatMap (fun kv =>
        if kv.1 = "dateModified" then optCand 9 .updated (pdsJ p kv.2)
        else if kv.1 = "datePublished" ∨ kv.1 = "dateCreated" then
          optCand 9 .published (pdsJ p kv.2)
        else []))
    ∧ (∀ pre suf (k : String) (v : JVal), pdsJ p v = none →
        sdObjCands p (.flat (pre ++ (k, v) :: suf)) = sdObjCands p (.flat (pre ++ suf))) := by
  refine ⟨fun _ => rfl, ?_, fun _ => rfl, fun _ => rfl, rfl, ?_, ?_⟩
  · intro fields
    show graphKeySpec.flatMap (graphKeyCands p fields) = _
    simp only [graphKeySpec, List.flatMap_cons, List.flatMap_nil, List.append_nil,
      graphKeyCands_eq]
  · intro fields
    exact congrArg (List.flatMap fields) (funext fun kv => flatFieldCands_eq p kv)
  · intro pre suf k v h
    show (pre ++ (k, v) :: suf).flatMap (flatFieldCands p)
        = (pre ++ suf).flatMap (flatFieldCands p)
    rw [List.flatMap_append, List.flatMap_append, List.flatMap_cons,
      flatFieldCands_none h, List.nil_append]

/-- Witness for C6: the spec's flat example document yields exactly the
updated (score 9) and published (score 9) candidates, and replacing a
value by an unparseable string only removes that key's candidate. -/
theorem C6_witness :
    sdObjCands demoParse
        (.flat [("dateModified", .str "2024-01-02"), ("datePublished", .str "2023-12-01")])
      = [⟨⟨200, 0⟩, 9, .updated⟩, ⟨⟨150, 0⟩, 9, .published⟩]
    ∧ sdObjCands demoParse
        (.flat [("dateModified", .str "2024-01-02"), ("datePublished", .str "garbage")])
      = sdObjCands demoParse (.flat [("dateModified", .str "2024-01-02")]) := by
  constructor
  · have h := (C6_structured_data demoParse).2.2.2.2.2.1
      [("dateModified", .str "2024-01-02"), ("datePublished", .str "2023-12-01")]
    rw [h]
    decide
  · exact (C6_structured_data demoParse).2.2.2.2.2.2
      [("dateModified", .str "2024-01-02")] [] "datePublished" (.str "garbage") (by decide)

/-- C8: the extraction call never surfaces an error to the caller: with
every step that can raise threaded through the exception monad, the run
always produces an ok result — pattern-match misses, parse failures of
any of the causes in the error taxonomy, and missing attributes or
elements each produce no candidate and never abort the call. -/
theorem C8_no_uncaught_error (p : DateParser) (now : Int) (inp : ExtractInput) :
    parseRunE p now inp = .ok (parseRun p now inp) := by
  simp only [parseRunE, dateMatchesE_ok]
  rfl

theorem optCand_mem {sc : Int} {k : Kind} {c : Candidate} {d? : Option DateTime}
    (h : c ∈ optCand sc k d?) : d? = some c.date := by
  cases d? with
  | none => exact absurd h (by simp [optCand])
  | some d =>
    simp only [optCand, List.mem_singleton] at h
    rw [h]

theorem urlCands_provenance {p : DateParser} {m? : Option String} {c : Candidate}
    (h : c ∈ urlCands p m?) : ∃ s : String, p s = .ok c.date := by
  cases m? with
  | none => exact absurd h (by simp [urlCands])
  | some m =>
    simp only [urlCands] at h
    revert h
    cases hd : pds p (some m) with
    | none => intro h; exact absurd h (by simp)
    | some d =>
      intro h
      simp only [List.mem_singleton] at h
      subst h
      exact pds_some hd

theorem sdObjCands_provenance {p : DateParser} {o : SDObj} {c : Candidate}
    (h : c ∈ sdObjCands p o) : ∃ s : String, p s = .ok c.date := by
  cases o with
  | graph entries =>
    simp only [sdObjCands, List.mem_flatMap] at h
    rcases h with ⟨item, _, hc⟩
    cases item with
    | obj fields =>
      simp only [graphItemCands, List.mem_flatMap] at hc
      rcases hc with ⟨kv, _, hc⟩
      rw [graphKeyCands_eq] at hc
      have := optCand_mem hc
      cases hg : jGet fields kv.1 with
      | none => rw [hg] at this; exact absurd this (by simp)
      | some v =>
        rw [hg] at this
        exact pdsJ_some this
    | str s => exact absurd hc (by simp [graphItemCands])
    | arr es => exact absurd hc (by simp [graphItemCands])
    | other => exact absurd hc (by simp [graphItemCands])
  | flat fields =>
    simp only [sdObjCands, List.mem_flatMap] at h
    rcases h with ⟨kv, _, hc⟩
    rw [flatFieldCands_eq] at hc
    split_ifs at hc with h1 h2
    · exact pdsJ_some (optCand_mem hc)
    · exact pdsJ_some (optCand_mem hc)
    · exact absurd hc (by simp)

theorem timeTagCands_provenance {p : DateParser} {t : TimeTag} {c : Candidate}
    (h : c ∈ timeTagCands p t) : ∃ s : String, p s = .ok c.date := by
  simp only [timeTagCands] at h
  revert h
  by_cases ht : pyTruthy t.datetime
  · rw [if_pos ht]
    cases hd : pds p t.datetime with
    | none => intro h; exact absurd h (by simp)
    | some d =>
      intro h
      simp only [List.mem_singleton] at h
      subst h
      exact pds_some hd
  · rw [if_neg ht]
    intro h
    exact absurd h (by simp)

theorem metaCands_provenance {p : DateParser} {now : Int} {m : MetaCand} {c : Candidate}
    (h : c ∈ metaCands p now m) : ∃ s : String, p s = .ok c.date := by
  simp only [metaCands] at h
  revert h
  cases hd : pds p m.attrVal with
  | none => intro h; exact absurd h (by simp)
  | some d =>
    intro h
    simp only [List.mem_singleton] at h
    subst h
    exact pds_some hd

/-- C9: every candidate ever appended to the candidate list carries a
timestamp obtained from a raw string on which the date-string parser
succeeded; raw strings that are absent or fail to parse never become
candidates in any harvesting stage. -/
theorem C9_candidate_provenance (p : DateParser) (now : Int) (inp : ExtractInput) :
    ∀ c ∈ dateMatches p now inp, ∃ s : String, p s = .ok c.date := by
  intro c hc
  simp only [dateMatches, List.mem_append] at hc
  rcases hc with ((hc | hc) | hc) | hc
  · exact urlCands_provenance hc
  · rcases List.mem_flatMap.1 hc with ⟨o, _, hc⟩
    exact sdObjCands_provenance hc
  · rcases List.mem_flatMap.1 hc with ⟨t, _, hc⟩
    exact timeTagCands_provenance hc
  · rcases List.mem_flatMap.1 hc with ⟨m, _, hc⟩
    exact metaCands_provenance hc

/-- Witness for C9: the single candidate harvested from the demo flat
document indeed carries a date the demo parser produced from a raw
string. -/
theorem C9_witness :
    ∃ s : String, demoParse s = .ok (Candidate.mk ⟨200, 0⟩ 9 .updated).date := by
  have hmem : (Candidate.mk ⟨200, 0⟩ 9 .updated) ∈ dateMatches demoParse 300 demoFlatInput := by
    decide
  exact C9_candidate_provenance demoParse 300 demoFlatInput _ hmem

end Newspaper
